import Mathlib

/-!
Shallow embedding of the collaborative session manager implemented in
`src/websockets/collaborationHandler.ts`.

Modelling choices, all taken from the source:
* JavaScript `Map`s (`documentRooms`, `autoSaveTimers`, a room's `users`)
  become insertion-ordered association lists with `mfind` / `mset` /
  `merase` mirroring `Map.get` / `Map.set` / `Map.delete`.
* socket.io room membership (`socket.join` / `socket.leave` /
  `socket.to(room).emit`) becomes a mapping from room id to the list of
  member socket ids; a room broadcast delivers to every member except
  the sender.
* `setTimeout` handles become entries of a list of live timers carrying
  an id, the captured content, and an absolute deadline; `clearTimeout`
  removes the entry with the given id; a timer may fire only once its
  deadline has been reached.
* Each socket event handler becomes a pure function from the server
  state (plus the event payload, the clock, and the random draw for the
  colour) to a new state and the list of emissions
  `(recipient socket id, event)` it produces.
* The Mongo document store becomes part of the state as an association
  list from document id to document; `findByIdAndUpdate` updates the
  entry when present and is a no-op otherwise.
-/

/-- JS `Map.get`: the value stored at a key. -/
def mfind (k : String) : List (String × α) → Option α
  | [] => none
  | (k', v) :: rest => if k' = k then some v else mfind k rest

/-- JS `Map.set`: replace the value in place when the key is present, else append. -/
def mset (k : String) (v : α) : List (String × α) → List (String × α)
  | [] => [(k, v)]
  | (k', v') :: rest => if k' = k then (k, v) :: rest else (k', v') :: mset k v rest

/-- JS `Map.delete`: remove the entry at a key. -/
def merase (k : String) : List (String × α) → List (String × α)
  | [] => []
  | (k', v') :: rest => if k' = k then rest else (k', v') :: merase k rest

/-- A collaborator entry of the document schema: a user id and a permission. -/
structure Collaborator where
  user : String
  permission : String
deriving DecidableEq

/-- A stored document: owner, collaborator list and current content. -/
structure Doc where
  owner : String
  collaborators : List Collaborator
  content : String
deriving DecidableEq

/-- `SocketUser`: the presence record kept in a room's `users` map. -/
structure SocketUser where
  socketId : String
  userId : String
  userName : String
  color : String
deriving DecidableEq

/-- `DocumentRoom`: a document id and its `users` map keyed by socket id. -/
structure DocumentRoom where
  documentId : String
  users : List (String × SocketUser)
deriving DecidableEq

/-- `DocumentAutoSave`: a registry entry holding the pending `setTimeout` handle. -/
structure DocumentAutoSave where
  documentId : String
  content : String
  timeoutId : Nat
deriving DecidableEq

/-- A scheduled `setTimeout` that has been neither cancelled nor fired. -/
structure LiveTimer where
  id : Nat
  documentId : String
  content : String
  deadline : Nat
deriving DecidableEq

/-- The events the handlers emit to sockets. -/
inductive SocketEvent where
  | errorMsg (message : String)
  | userJoined (userId userName color : String)
  | usersList (users : List SocketUser)
  | textChange (delta content userId : String)
  | cursorMove (userId userName color : String) (position : Nat)
  | documentSaved (success : Bool) (timestamp : Option Nat)
  | userLeft (userId userName : String)
deriving DecidableEq

/-- An emission: the recipient socket id together with the event. -/
abbrev Emission := String × SocketEvent

/-- The whole mutable state the collaboration handlers read and write. -/
structure ServerState where
  documentRooms : List (String × DocumentRoom)
  autoSaveTimers : List (String × DocumentAutoSave)
  ioRooms : List (String × List String)
  store : List (String × Doc)
  liveTimers : List LiveTimer
  nextTimerId : Nat
deriving DecidableEq

/-- `AUTO_SAVE_DEBOUNCE_MS`: the debounce interval (30 seconds). -/
def AUTO_SAVE_DEBOUNCE_MS : Nat := 30000

/-- The colour palette of `generateUserColor`. -/
def palette : List String :=
  ["#FF6B6B", "#4ECDC4", "#45B7D1", "#FFA07A",
   "#98D8C8", "#F7DC6F", "#BB8FCE", "#85C1E2"]

/-- `generateUserColor`, with the random draw supplied as a natural number. -/
def generateUserColor (rand : Nat) : String :=
  (palette.get? (rand % palette.length)).getD ""

/-- The socket ids currently in socket.io room `documentId`. -/
def roomMembers (st : ServerState) (documentId : String) : List String :=
  (mfind documentId st.ioRooms).getD []

/-- `socket.join(documentId)`: idempotent insertion into the io room. -/
def socketJoin (st : ServerState) (socketId documentId : String) : ServerState :=
  let ms := roomMembers st documentId
  if socketId ∈ ms then st
  else { st with ioRooms := mset documentId (ms ++ [socketId]) st.ioRooms }

/-- `socket.leave(documentId)`: removal from the io room. -/
def socketLeave (st : ServerState) (socketId documentId : String) : ServerState :=
  match mfind documentId st.ioRooms with
  | none => st
  | some ms => { st with ioRooms := mset documentId (ms.filter (· ≠ socketId)) st.ioRooms }

/-- `socket.to(documentId).emit ev`: deliver to every room member except the sender. -/
def broadcastExcept (st : ServerState) (documentId senderId : String)
    (ev : SocketEvent) : List Emission :=
  ((roomMembers st documentId).filter (· ≠ senderId)).map (fun m => (m, ev))

/-- The access check of the join handler: owner or listed collaborator. -/
def hasAccess (d : Doc) (userId : String) : Bool :=
  d.owner == userId || d.collaborators.any (fun c => c.user == userId)

/-- The roster the join handler sees for a document before inserting the joiner
(the existing room's `users` map, or empty when the room is created). -/
def rosterOf (st : ServerState) (documentId : String) : List (String × SocketUser) :=
  ((mfind documentId st.documentRooms).getD ⟨documentId, []⟩).users

/-- The `join-document` handler: load the document, check access, join the io
room, insert the presence, notify the others, send the roster to the joiner. -/
def joinDocument (st : ServerState) (socketId userId documentId userName : String)
    (rand : Nat) : ServerState × List Emission :=
  match mfind documentId st.store with
  | none => (st, [(socketId, .errorMsg "Document not found")])
  | some doc =>
    if hasAccess doc userId then
      let st1 := socketJoin st socketId documentId
      let st2 :=
        if (mfind documentId st1.documentRooms).isSome then st1
        else { st1 with documentRooms := mset documentId ⟨documentId, []⟩ st1.documentRooms }
      let room := (mfind documentId st2.documentRooms).getD ⟨documentId, []⟩
      let color := generateUserColor rand
      let newUsers := mset socketId ⟨socketId, userId, userName, color⟩ room.users
      let st3 := { st2 with documentRooms := mset documentId { room with users := newUsers } st2.documentRooms }
      let notifyOthers := broadcastExcept st3 documentId socketId (.userJoined userId userName color)
      let currentUsers := (newUsers.map Prod.snd).filter (fun u => u.socketId ≠ socketId)
      (st3, notifyOthers ++ [(socketId, .usersList currentUsers)])
    else
      (st, [(socketId, .errorMsg "Access denied")])

/-- `clearTimeout` on a handle: the timer with that id is no longer live. -/
def clearTimeoutId (st : ServerState) (tid : Nat) : ServerState :=
  { st with liveTimers := st.liveTimers.filter (fun t => t.id ≠ tid) }

/-- The `text-change` handler: relay to the rest of the room, cancel the
pending debounce timeout for the document (when one is registered), and
register a fresh timeout for `now + AUTO_SAVE_DEBOUNCE_MS` carrying the
supplied content. -/
def textChange (st : ServerState) (socketId userId documentId delta content : String)
    (now : Nat) : ServerState × List Emission :=
  let ems := broadcastExcept st documentId socketId (.textChange delta content userId)
  let st1 :=
    match mfind documentId st.autoSaveTimers with
    | some existing => clearTimeoutId st existing.timeoutId
    | none => st
  let tid := st1.nextTimerId
  let newTimer : LiveTimer := ⟨tid, documentId, content, now + AUTO_SAVE_DEBOUNCE_MS⟩
  let st2 := { st1 with
    liveTimers := st1.liveTimers ++ [newTimer],
    nextTimerId := tid + 1,
    autoSaveTimers := mset documentId ⟨documentId, content, tid⟩ st1.autoSaveTimers }
  (st2, ems)

/-- `Document.findByIdAndUpdate(id, {content})`: update when present, no-op when absent. -/
def storeUpdate (store : List (String × Doc)) (documentId content : String) :
    List (String × Doc) :=
  match mfind documentId store with
  | some d => mset documentId { d with content := content } store
  | none => store

/-- The body of the debounce timeout callback: issue the store write with the
captured content, then delete the registry entry for the document.  The second
component records the store write that was issued. -/
def fireTimer (st : ServerState) (t : LiveTimer) : ServerState × List (String × String) :=
  ({ st with
      store := storeUpdate st.store t.documentId t.content,
      liveTimers := st.liveTimers.filter (fun u => u.id ≠ t.id),
      autoSaveTimers := merase t.documentId st.autoSaveTimers },
   [(t.documentId, t.content)])

/-- Run every live timer whose deadline has been reached, in creation order,
collecting the store writes issued. -/
def fireDueTimers (st : ServerState) (now : Nat) : ServerState × List (String × String) :=
  let due := st.liveTimers.filter (fun t => t.deadline ≤ now)
  (due.foldl (fun s t => (fireTimer s t).1) st,
   due.map (fun t => (t.documentId, t.content)))

/-- The `cursor-move` handler: relay the position with the sender's presence
identity, or drop the event silently when the room or the presence is absent. -/
def cursorMove (st : ServerState) (socketId documentId : String) (position : Nat) :
    ServerState × List Emission :=
  match mfind documentId st.documentRooms with
  | none => (st, [])
  | some room =>
    match mfind socketId room.users with
    | none => (st, [])
    | some u =>
      (st, broadcastExcept st documentId socketId
        (.cursorMove u.userId u.userName u.color position))

/-- The `save-document` handler; `writeOk` tells whether the awaited store
write succeeds (does not throw). -/
def saveDocument (st : ServerState) (socketId userId documentId content : String)
    (now : Nat) (writeOk : Bool) : ServerState × List Emission :=
  if writeOk then
    let st1 := { st with store := storeUpdate st.store documentId content }
    (st1,
     (socketId, .documentSaved true (some now)) ::
       broadcastExcept st1 documentId socketId (.documentSaved true (some now)))
  else
    (st, [(socketId, .documentSaved false none)])

/-- `handleUserLeave`: drop the presence, notify the remaining members, delete
the room when its roster became empty, and leave the io room. -/
def handleUserLeave (st : ServerState) (socketId documentId : String) :
    ServerState × List Emission :=
  let p :=
    match mfind documentId st.documentRooms with
    | none => (st, ([] : List Emission))
    | some room =>
      let users1 :=
        match mfind socketId room.users with
        | some _ => merase socketId room.users
        | none => room.users
      let ems :=
        match mfind socketId room.users with
        | some u => broadcastExcept st documentId socketId (.userLeft u.userId u.userName)
        | none => ([] : List Emission)
      let rooms1 :=
        if users1 = [] then merase documentId st.documentRooms
        else mset documentId { room with users := users1 } st.documentRooms
      ({ st with documentRooms := rooms1 }, ems)
  (socketLeave p.1 socketId documentId, p.2)

/-- The `leave-document` handler. -/
def leaveDocument (st : ServerState) (socketId documentId : String) :
    ServerState × List Emission :=
  handleUserLeave st socketId documentId

/-- The room sweep of the `disconnect` handler, written as recursion over the
snapshot of `documentRooms` entries (JS `Map.forEach` visits each key once;
an iteration only ever mutates the entry of the key it visits). -/
def leaveAll (socketId : String) : List (String × DocumentRoom) →
    ServerState × List Emission → ServerState × List Emission
  | [], acc => acc
  | e :: rest, acc =>
    leaveAll socketId rest
      (if (mfind socketId e.2.users).isSome then
        let p := handleUserLeave acc.1 socketId e.1
        (p.1, acc.2 ++ p.2)
      else acc)

/-- The timer sweep of the `disconnect` handler: for every registry entry,
`clearTimeout` its handle and delete the entry. -/
def cancelList (l : List (String × DocumentAutoSave)) (st : ServerState) : ServerState :=
  l.foldl
    (fun s e =>
      let s1 := clearTimeoutId s e.2.timeoutId
      { s1 with autoSaveTimers := merase e.1 s1.autoSaveTimers })
    st

/-- The `disconnect` handler: leave every room whose roster holds the socket,
then cancel and delete every pending auto-save registry entry. -/
def disconnect (st : ServerState) (socketId : String) : ServerState × List Emission :=
  let p := leaveAll socketId st.documentRooms (st, [])
  (cancelList p.1.autoSaveTimers p.1, p.2)

/-- Monotone times, each strictly inside the debounce window of its predecessor. -/
def gapsOk : List (Nat × String) → Bool
  | [] => true
  | [_] => true
  | a :: b :: rest =>
    (a.1 ≤ b.1 && b.1 < a.1 + AUTO_SAVE_DEBOUNCE_MS) && gapsOk (b :: rest)

/-- Drive the event loop over a list of timed edits to one document: before
each edit, fire whatever timers are due; then run the `text-change` handler.
Collects the store writes issued along the way. -/
def runEdits (socketId userId documentId delta : String) :
    List (Nat × String) → ServerState → ServerState × List (String × String)
  | [], st => (st, [])
  | (t, c) :: rest, st =>
    let p1 := fireDueTimers st t
    let st2 := (textChange p1.1 socketId userId documentId delta c t).1
    let pr := runEdits socketId userId documentId delta rest st2
    (pr.1, p1.2 ++ pr.2)

/-- Keys of an association list are pairwise distinct (JS `Map` invariant). -/
def NodupKeys (l : List (String × α)) : Prop :=
  (l.map Prod.fst).Nodup

/-- Every live timer handle is the one registered for its document: the
auto-save registry entry for the timer's document holds exactly its id. -/
def TimersWired (st : ServerState) : Prop :=
  ∀ t ∈ st.liveTimers,
    (mfind t.documentId st.autoSaveTimers).map (fun e => e.timeoutId) = some t.id

theorem mfind_mset_self (k : String) (v : α) (l : List (String × α)) :
    mfind k (mset k v l) = some v := by
  induction l with
  | nil => simp [mfind, mset]
  | cons e rest ih =>
    obtain ⟨k', v'⟩ := e
    by_cases h : k' = k
    · simp [mset, mfind, h]
    · simp [mset, mfind, h, ih]

theorem mfind_mset_ne (h : k' ≠ k) (v : α) (l : List (String × α)) :
    mfind k (mset k' v l) = mfind k l := by
  induction l with
  | nil => simp [mfind, mset, h]
  | cons e rest ih =>
    obtain ⟨k'', v''⟩ := e
    by_cases h2 : k'' = k'
    · subst h2
      simp [mset, mfind, h]
    · simp only [mset, if_neg h2]
      by_cases h3 : k'' = k
      · simp [mfind, h3]
      · simp [mfind, h3, ih]

theorem mfind_merase_ne (h : k' ≠ k) (l : List (String × α)) :
    mfind k (merase k' l) = mfind k l := by
  induction l with
  | nil => simp [merase]
  | cons e rest ih =>
    obtain ⟨k'', v''⟩ := e
    by_cases h2 : k'' = k'
    · subst h2
      simp [merase, mfind, h]
    · by_cases h3 : k'' = k
      · simp [merase, mfind, h2, h3, Ne.symm h]
      · simp [merase, mfind, h2, h3, ih]

theorem mfind_eq_none_iff (k : String) (l : List (String × α)) :
    mfind k l = none ↔ k ∉ l.map Prod.fst := by
  induction l with
  | nil => simp [mfind]
  | cons e rest ih =>
    obtain ⟨k', v'⟩ := e
    by_cases h : k' = k
    · simp [mfind, h]
    · simp [mfind, h, ih, Ne.symm h]

theorem mfind_mem (h : mfind k l = some v) : (k, v) ∈ l := by
  induction l with
  | nil => simp [mfind] at h
  | cons e rest ih =>
    obtain ⟨k', v'⟩ := e
    by_cases h2 : k' = k
    · subst h2
      simp [mfind] at h
      simp [h]
    · simp [mfind, h2] at h
      exact List.mem_cons_of_mem _ (ih h)

theorem mset_of_not_mem (h : k ∉ l.map Prod.fst) (v : α) :
    mset k v l = l ++ [(k, v)] := by
  induction l with
  | nil => simp [mset]
  | cons e rest ih =>
    obtain ⟨k', v'⟩ := e
    simp only [List.map_cons, List.mem_cons] at h
    push_neg at h
    simp [mset, Ne.symm h.1, ih h.2]

theorem keys_mset (k : String) (v : α) (l : List (String × α)) :
    (mset k v l).map Prod.fst =
      if k ∈ l.map Prod.fst then l.map Prod.fst else l.map Prod.fst ++ [k] := by
  induction l with
  | nil => simp [mset]
  | cons e rest ih =>
    obtain ⟨k', v'⟩ := e
    by_cases h : k' = k
    · simp [mset, h]
    · simp only [mset, if_neg h, List.map_cons, List.mem_cons]
      by_cases h2 : k ∈ rest.map Prod.fst
      · simp [h2, ih, Ne.symm h]
      · simp [h2, ih, Ne.symm h]

theorem nodupKeys_mset {α : Type} {l : List (String × α)} (h : NodupKeys l)
    (k : String) (v : α) : NodupKeys (mset k v l) := by
  unfold NodupKeys at *
  rw [keys_mset]
  by_cases h2 : k ∈ l.map Prod.fst
  · simpa [h2]
  · simp only [h2, if_false]
    refine List.Nodup.append h (List.nodup_singleton _) ?_
    intro a ha hk
    simp only [List.mem_singleton] at hk
    subst hk
    exact h2 ha

theorem merase_sublist (k : String) (l : List (String × α)) :
    (merase k l).Sublist l := by
  induction l with
  | nil => simp [merase]
  | cons e rest ih =>
    obtain ⟨k', v'⟩ := e
    by_cases h : k' = k
    · simp [merase, h]
    · simp only [merase, if_neg h]
      exact ih.cons₂ _

theorem nodupKeys_merase (h : NodupKeys l) (k : String) :
    NodupKeys (merase k l) :=
  List.Nodup.sublist (List.Sublist.map Prod.fst (merase_sublist k l)) h

theorem mfind_merase_self (h : NodupKeys l) (k : String) :
    mfind k (merase k l) = none := by
  induction l with
  | nil => simp [merase, mfind]
  | cons e rest ih =>
    obtain ⟨k', v'⟩ := e
    unfold NodupKeys at h
    simp only [List.map_cons, List.nodup_cons] at h
    by_cases h2 : k' = k
    · subst h2
      simp only [merase, if_pos rfl]
      exact (mfind_eq_none_iff _ _).mpr h.1
    · simp only [merase, if_neg h2, mfind, if_neg h2]
      exact ih h.2

theorem socketJoin_documentRooms (st : ServerState) (sid docId : String) :
    (socketJoin st sid docId).documentRooms = st.documentRooms := by
  simp only [socketJoin]
  split <;> rfl

theorem socketJoin_store (st : ServerState) (sid docId : String) :
    (socketJoin st sid docId).store = st.store := by
  simp only [socketJoin]
  split <;> rfl

theorem joinDocument_find_room (st : ServerState) (sid uid docId name : String)
    (rand : Nat) (d : Doc) (h : mfind docId st.store = some d)
    (ha : hasAccess d uid = true) :
    mfind docId (joinDocument st sid uid docId name rand).1.documentRooms =
      some { (mfind docId st.documentRooms).getD ⟨docId, []⟩ with
             users := mset sid ⟨sid, uid, name, generateUserColor rand⟩ (rosterOf st docId) } := by
  simp only [joinDocument, h, ha, if_true, socketJoin_documentRooms, rosterOf]
  rcases hr : mfind docId st.documentRooms with _ | room
  · simp [hr, mfind_mset_self, socketJoin_documentRooms]
  · simp [hr, mfind_mset_self, socketJoin_documentRooms]

/-- C1: on `join-document`, an absent document yields a `Document not found`
error with no state change; a user who is neither owner nor collaborator
yields an `Access denied` error with no state change, so the socket is never
added to the roster; and the socket ends up in the room's roster iff the user
has access (or the socket was already in the roster beforehand). -/
theorem join_access_control (st : ServerState) (sid uid docId name : String) (rand : Nat) :
    (mfind docId st.store = none →
      joinDocument st sid uid docId name rand =
        (st, [(sid, .errorMsg "Document not found")])) ∧
    (∀ d, mfind docId st.store = some d → hasAccess d uid = false →
      joinDocument st sid uid docId name rand =
        (st, [(sid, .errorMsg "Access denied")])) ∧
    (∀ d, mfind docId st.store = some d → hasAccess d uid = true →
      ∃ room, mfind docId (joinDocument st sid uid docId name rand).1.documentRooms = some room ∧
        (mfind sid room.users).isSome = true) ∧
    (∀ d, mfind docId st.store = some d →
      ((∃ room, mfind docId (joinDocument st sid uid docId name rand).1.documentRooms = some room ∧
          (mfind sid room.users).isSome = true) ↔
        (hasAccess d uid = true ∨
          ∃ room0, mfind docId st.documentRooms = some room0 ∧
            (mfind sid room0.users).isSome = true))) := by
  refine ⟨?_, ?_, ?_, ?_⟩
  · intro h
    simp [joinDocument, h]
  · intro d h ha
    simp [joinDocument, h, ha]
  · intro d h ha
    refine ⟨_, joinDocument_find_room st sid uid docId name rand d h ha, ?_⟩
    simp [mfind_mset_self]
  · intro d h
    by_cases ha : hasAccess d uid = true
    · constructor
      · intro _
        exact Or.inl ha
      · intro _
        exact ⟨_, joinDocument_find_room st sid uid docId name rand d h ha,
          by simp [mfind_mset_self]⟩
    · have hfalse : hasAccess d uid = false := by simpa using ha
      have hstate : joinDocument st sid uid docId name rand =
          (st, [(sid, .errorMsg "Access denied")]) := by
        simp [joinDocument, h, hfalse]
      rw [hstate]
      constructor
      · intro hex
        exact Or.inr hex
      · rintro (hacc | hex)
        · exact absurd hacc ha
        · exact hex

/-- A sample document, owned by alice with collaborator bob. -/
def docA : Doc := ⟨"alice", [⟨"bob", "editor"⟩], "hello"⟩

/-- A sample initial state: one stored document, no rooms, no timers. -/
def st0 : ServerState := ⟨[], [], [], [("d1", docA)], [], 0⟩

theorem join_access_control_witness :
    joinDocument st0 "s2" "eve" "d1" "Eve" 0 =
      (st0, [("s2", .errorMsg "Access denied")]) :=
  ((join_access_control st0 "s2" "eve" "d1" "Eve" 0).2.1) docA (by decide) (by decide)

theorem textChange_emissions (st : ServerState) (sid uid docId delta content : String)
    (now : Nat) :
    (textChange st sid uid docId delta content now).2 =
      broadcastExcept st docId sid (.textChange delta content uid) := rfl

theorem length_filter_ne (l : List String) (a : String) (hnd : l.Nodup) (hm : a ∈ l) :
    (l.filter (fun x => x ≠ a)).length = l.length - 1 := by
  induction l with
  | nil => simp at hm
  | cons b rest ih =>
    simp only [List.nodup_cons] at hnd
    rcases List.mem_cons.mp hm with rfl | hm2
    · have hall : rest.filter (fun x => x ≠ a) = rest := by
        refine List.filter_eq_self.mpr ?_
        intro x hx
        simp only [decide_eq_true_eq]
        intro hxa
        exact hnd.1 (hxa ▸ hx)
      simp [List.filter_cons, hall]
      intro x hx hxa
      subst hxa
      exact hnd.1 hx
    · have hba : b ≠ a := by
        intro h
        subst h
        exact hnd.1 hm2
      have hpos : 0 < rest.length := List.length_pos_of_mem hm2
      have hstep : List.filter (fun x => x ≠ a) (b :: rest) =
          b :: List.filter (fun x => x ≠ a) rest := by
        simp [List.filter_cons, hba]
      rw [hstep]
      simp only [List.length_cons, ih hnd.2 hm2]
      omega

/-- C2: a `text-change` sent by a member of a room is relayed — carrying the
delta, the content and the sender's user id — to exactly the other members of
the room, each exactly once, and never back to the sender. -/
theorem text_change_relay (st : ServerState) (sid uid docId delta content : String)
    (now : Nat) (hnd : (roomMembers st docId).Nodup)
    (hmem : sid ∈ roomMembers st docId) :
    (textChange st sid uid docId delta content now).2 =
      ((roomMembers st docId).filter (· ≠ sid)).map
        (fun m => (m, SocketEvent.textChange delta content uid)) ∧
    (textChange st sid uid docId delta content now).2.length =
      (roomMembers st docId).length - 1 ∧
    (∀ e ∈ (textChange st sid uid docId delta content now).2, e.1 ≠ sid) ∧
    (∀ m ∈ roomMembers st docId, m ≠ sid →
      (m, SocketEvent.textChange delta content uid) ∈
        (textChange st sid uid docId delta content now).2) ∧
    (textChange st sid uid docId delta content now).2.Nodup := by
  refine ⟨rfl, ?_, ?_, ?_⟩
  · rw [textChange_emissions]
    simp only [broadcastExcept, List.length_map]
    exact length_filter_ne _ _ hnd hmem
  · rw [textChange_emissions]
    simp only [broadcastExcept, List.mem_map, List.mem_filter]
    rintro e ⟨m, ⟨_, hm⟩, rfl⟩
    simpa using hm
  refine ⟨?_, ?_⟩
  · intro m hm hne
    rw [textChange_emissions]
    simp only [broadcastExcept]
    exact List.mem_map_of_mem _ (by simp [hm, hne])
  · rw [textChange_emissions]
    simp only [broadcastExcept]
    have hinj : Function.Injective
        (fun m => ((m, SocketEvent.textChange delta content uid) : Emission)) := by
      intro a b hab
      simpa using congrArg Prod.fst hab
    exact (hnd.filter _).map hinj

/-- A sample state: an active room on document d1 with three members. -/
def stRoom : ServerState :=
  ⟨[("d1", ⟨"d1", [("sA", ⟨"sA", "alice", "Alice", "#FF6B6B"⟩),
                   ("sB", ⟨"sB", "bob", "Bob", "#4ECDC4"⟩),
                   ("sC", ⟨"sC", "carol", "Carol", "#45B7D1"⟩)]⟩)],
   [], [("d1", ["sA", "sB", "sC"])], [("d1", docA)], [], 0⟩

theorem text_change_relay_witness :
    (roomMembers stRoom "d1").Nodup ∧ "sA" ∈ roomMembers stRoom "d1" ∧
    (textChange stRoom "sA" "alice" "d1" "dlt" "Hello" 0).2 =
      ((roomMembers stRoom "d1").filter (· ≠ "sA")).map
        (fun m => (m, SocketEvent.textChange "dlt" "Hello" "alice")) :=
  ⟨by decide, by decide,
   (text_change_relay stRoom "sA" "alice" "d1" "dlt" "Hello" 0
     (by decide) (by decide)).1⟩

/-- C8: explicit `save-document` writes to the store immediately, never touches
the debounce registry or the live timers; on success the requester receives
`document-saved {success := true, timestamp}` and the rest of the room the
same success notification; on failure only the requester is notified (with
`success := false`) and the state is left entirely unchanged. -/
theorem save_document_spec (st : ServerState) (sid uid docId content : String) (now : Nat) :
    (saveDocument st sid uid docId content now true =
      ({ st with store := storeUpdate st.store docId content },
       (sid, SocketEvent.documentSaved true (some now)) ::
         broadcastExcept st docId sid (.documentSaved true (some now)))) ∧
    ((saveDocument st sid uid docId content now true).1.autoSaveTimers = st.autoSaveTimers) ∧
    ((saveDocument st sid uid docId content now true).1.liveTimers = st.liveTimers) ∧
    ((saveDocument st sid uid docId content now false).1.autoSaveTimers = st.autoSaveTimers) ∧
    ((saveDocument st sid uid docId content now false).1.liveTimers = st.liveTimers) ∧
    (saveDocument st sid uid docId content now false =
      (st, [(sid, .documentSaved false none)])) := by
  refine ⟨?_, ?_, ?_, ?_, ?_, ?_⟩ <;> rfl

/-- C9: `cursor-move` never mutates the state; when the sender has no presence
in the document's room (including when the room does not exist) it is silently
dropped with no emission; otherwise it is relayed to every other room member
carrying the sender's presence identity and the position. -/
theorem cursor_move_spec (st : ServerState) (sid docId : String) (pos : Nat) :
    (cursorMove st sid docId pos).1 = st ∧
    (mfind docId st.documentRooms = none → (cursorMove st sid docId pos).2 = []) ∧
    (∀ room, mfind docId st.documentRooms = some room → mfind sid room.users = none →
      (cursorMove st sid docId pos).2 = []) ∧
    (∀ room u, mfind docId st.documentRooms = some room → mfind sid room.users = some u →
      (cursorMove st sid docId pos).2 =
        broadcastExcept st docId sid (.cursorMove u.userId u.userName u.color pos)) := by
  refine ⟨?_, ?_, ?_, ?_⟩
  · rcases h : mfind docId st.documentRooms with _ | room
    · simp [cursorMove, h]
    · rcases h2 : mfind sid room.users with _ | u
      · simp [cursorMove, h, h2]
      · simp [cursorMove, h, h2]
  · intro h
    simp [cursorMove, h]
  · intro room h h2
    simp [cursorMove, h, h2]
  · intro room u h h2
    simp [cursorMove, h, h2]

theorem cursor_move_spec_witness :
    (cursorMove stRoom "sB" "d1" 7).2 =
      broadcastExcept stRoom "d1" "sB" (.cursorMove "bob" "Bob" "#4ECDC4" 7) :=
  (cursor_move_spec stRoom "sB" "d1" 7).2.2.2
    ⟨"d1", [("sA", ⟨"sA", "alice", "Alice", "#FF6B6B"⟩),
            ("sB", ⟨"sB", "bob", "Bob", "#4ECDC4"⟩),
            ("sC", ⟨"sC", "carol", "Carol", "#45B7D1"⟩)]⟩
    ⟨"sB", "bob", "Bob", "#4ECDC4"⟩ (by decide) (by decide)

/-- C10: neither `save-document` nor `text-change` consults the access gate or
room membership: even for a user who is neither owner nor collaborator of the
stored document and a socket that is in no room, the explicit save writes the
supplied content to the store and the text change registers a debounced write
of the supplied content; neither emits an error event. -/
theorem no_access_check_on_save_and_edit (st : ServerState)
    (sid uid docId delta content : String) (now : Nat) (d : Doc)
    (h : mfind docId st.store = some d) (hacc : hasAccess d uid = false)
    (hmem : sid ∉ roomMembers st docId) :
    mfind docId (saveDocument st sid uid docId content now true).1.store =
      some { d with content := content } ∧
    (∀ e ∈ (saveDocument st sid uid docId content now true).2,
      ∀ msg, e.2 ≠ SocketEvent.errorMsg msg) ∧
    mfind docId (textChange st sid uid docId delta content now).1.autoSaveTimers =
      some ⟨docId, content, st.nextTimerId⟩ ∧
    (⟨st.nextTimerId, docId, content, now + AUTO_SAVE_DEBOUNCE_MS⟩ : LiveTimer) ∈
      (textChange st sid uid docId delta content now).1.liveTimers ∧
    (∀ e ∈ (textChange st sid uid docId delta content now).2,
      ∀ msg, e.2 ≠ SocketEvent.errorMsg msg) := by
  refine ⟨?_, ?_, ?_, ?_, ?_⟩
  · simp [saveDocument, storeUpdate, h, mfind_mset_self]
  · intro e he msg
    simp only [saveDocument, if_true, broadcastExcept, List.mem_cons,
      List.mem_map] at he
    rcases he with rfl | ⟨m, _, rfl⟩ <;> simp
  · rcases hts : mfind docId st.autoSaveTimers with _ | ex <;>
      simp [textChange, hts, clearTimeoutId, mfind_mset_self]
  · rcases hts : mfind docId st.autoSaveTimers with _ | ex <;>
      simp [textChange, hts, clearTimeoutId]
  · intro e he msg
    rw [textChange_emissions] at he
    simp only [broadcastExcept, List.mem_map] at he
    rcases he with ⟨m, _, rfl⟩
    simp

theorem no_access_check_witness :
    mfind "d1" (saveDocument st0 "s9" "eve" "d1" "pwned" 5 true).1.store =
      some { docA with content := "pwned" } :=
  (no_access_check_on_save_and_edit st0 "s9" "eve" "d1" "dlt" "pwned" 5 docA
    (by decide) (by decide) (by decide)).1

theorem textChange_state_some (st : ServerState) (sid uid docId delta content : String)
    (now : Nat) (ex : DocumentAutoSave) (hts : mfind docId st.autoSaveTimers = some ex) :
    (textChange st sid uid docId delta content now).1 =
      { st with
        liveTimers := st.liveTimers.filter (fun t => t.id ≠ ex.timeoutId) ++
          [⟨st.nextTimerId, docId, content, now + AUTO_SAVE_DEBOUNCE_MS⟩],
        nextTimerId := st.nextTimerId + 1,
        autoSaveTimers := mset docId ⟨docId, content, st.nextTimerId⟩ st.autoSaveTimers } := by
  simp [textChange, hts, clearTimeoutId]

theorem textChange_state_none (st : ServerState) (sid uid docId delta content : String)
    (now : Nat) (hts : mfind docId st.autoSaveTimers = none) :
    (textChange st sid uid docId delta content now).1 =
      { st with
        liveTimers := st.liveTimers ++
          [⟨st.nextTimerId, docId, content, now + AUTO_SAVE_DEBOUNCE_MS⟩],
        nextTimerId := st.nextTimerId + 1,
        autoSaveTimers := mset docId ⟨docId, content, st.nextTimerId⟩ st.autoSaveTimers } := by
  simp [textChange, hts]

theorem wired_ne_of_none (st : ServerState) (docId : String) (hw : TimersWired st)
    (hts : mfind docId st.autoSaveTimers = none) :
    ∀ t ∈ st.liveTimers, t.documentId ≠ docId := by
  intro t ht heq
  have := hw t ht
  rw [heq, hts] at this
  simp at this

theorem wired_id_of_some (st : ServerState) (docId : String) (ex : DocumentAutoSave)
    (hw : TimersWired st) (hts : mfind docId st.autoSaveTimers = some ex) :
    ∀ t ∈ st.liveTimers, t.documentId = docId → t.id = ex.timeoutId := by
  intro t ht heq
  have := hw t ht
  rw [heq, hts] at this
  simpa using this.symm

/-- C4: scheduling a debounced save for a document cancels the previously
pending timer for it before registering the replacement: after a
`text-change`, the live timers for the document are exactly the single fresh
one; at most one live timer per document is preserved, as is the fact that
every live timer is the one the registry references. -/
theorem timer_replacement_unique (st : ServerState) (sid uid docId delta content : String)
    (now : Nat) (hw : TimersWired st)
    (hp : st.liveTimers.Pairwise (fun a b => a.documentId ≠ b.documentId)) :
    ((textChange st sid uid docId delta content now).1.liveTimers.filter
        (fun t => t.documentId = docId)) =
      [⟨st.nextTimerId, docId, content, now + AUTO_SAVE_DEBOUNCE_MS⟩] ∧
    (textChange st sid uid docId delta content now).1.liveTimers.Pairwise
      (fun a b => a.documentId ≠ b.documentId) ∧
    TimersWired (textChange st sid uid docId delta content now).1 := by
  rcases hts : mfind docId st.autoSaveTimers with _ | ex
  · have hne := wired_ne_of_none st docId hw hts
    rw [textChange_state_none st sid uid docId delta content now hts]
    refine ⟨?_, ?_, ?_⟩
    · rw [List.filter_append]
      have h1 : st.liveTimers.filter (fun t => t.documentId = docId) = [] := by
        rw [List.filter_eq_nil]
        intro t ht
        simp [hne t ht]
      rw [h1]
      simp
    · rw [List.pairwise_append]
      refine ⟨hp, List.pairwise_singleton _ _, ?_⟩
      intro a ha b hb
      simp only [List.mem_singleton] at hb
      subst hb
      exact hne a ha
    · intro t ht
      simp only [List.mem_append, List.mem_singleton] at ht
      rcases ht with ht | rfl
      · dsimp only
        rw [mfind_mset_ne (Ne.symm (hne t ht))]
        exact hw t ht
      · simp [mfind_mset_self]
  · have hid := wired_id_of_some st docId ex hw hts
    rw [textChange_state_some st sid uid docId delta content now ex hts]
    have hkept : ∀ t ∈ st.liveTimers.filter (fun t => t.id ≠ ex.timeoutId),
        t.documentId ≠ docId := by
      intro t ht hdoc
      rw [List.mem_filter] at ht
      have := hid t ht.1 hdoc
      simp [this] at ht
    refine ⟨?_, ?_, ?_⟩
    · rw [List.filter_append]
      have h1 : (st.liveTimers.filter (fun t => t.id ≠ ex.timeoutId)).filter
          (fun t => t.documentId = docId) = [] := by
        rw [List.filter_eq_nil]
        intro t ht
        simp [hkept t ht]
      rw [h1]
      simp
    · rw [List.pairwise_append]
      refine ⟨hp.sublist (List.filter_sublist _), List.pairwise_singleton _ _, ?_⟩
      intro a ha b hb
      simp only [List.mem_singleton] at hb
      subst hb
      exact hkept a ha
    · intro t ht
      simp only [List.mem_append, List.mem_singleton] at ht
      rcases ht with ht | rfl
      · dsimp only
        rw [mfind_mset_ne (Ne.symm (hkept t ht))]
        exact hw t ((List.filter_sublist _).mem ht)
      · simp [mfind_mset_self]

/-- A sample state with one pending auto-save timer for d1. -/
def stTimer : ServerState :=
  ⟨[], [("d1", ⟨"d1", "old", 0⟩)], [], [("d1", docA)], [⟨0, "d1", "old", 30000⟩], 1⟩

theorem timer_replacement_unique_witness :
    (textChange stTimer "sA" "alice" "d1" "dlt" "new" 10000).1.liveTimers.filter
        (fun t => t.documentId = "d1") =
      [⟨1, "d1", "new", 40000⟩] :=
  (timer_replacement_unique stTimer "sA" "alice" "d1" "dlt" "new" 10000
    (by unfold TimersWired; decide) (by decide)).1

theorem socketLeave_autoSaveTimers (st : ServerState) (sid docId : String) :
    (socketLeave st sid docId).autoSaveTimers = st.autoSaveTimers := by
  unfold socketLeave
  split <;> rfl

theorem socketLeave_liveTimers (st : ServerState) (sid docId : String) :
    (socketLeave st sid docId).liveTimers = st.liveTimers := by
  unfold socketLeave
  split <;> rfl

theorem socketLeave_documentRooms (st : ServerState) (sid docId : String) :
    (socketLeave st sid docId).documentRooms = st.documentRooms := by
  unfold socketLeave
  split <;> rfl

theorem handleUserLeave_autoSaveTimers (st : ServerState) (sid docId : String) :
    (handleUserLeave st sid docId).1.autoSaveTimers = st.autoSaveTimers := by
  unfold handleUserLeave
  rcases h : mfind docId st.documentRooms with _ | room
  · simp [h, socketLeave_autoSaveTimers]
  · rcases h2 : mfind sid room.users with _ | u <;>
      simp [h, h2, socketLeave_autoSaveTimers]

theorem handleUserLeave_liveTimers (st : ServerState) (sid docId : String) :
    (handleUserLeave st sid docId).1.liveTimers = st.liveTimers := by
  unfold handleUserLeave
  rcases h : mfind docId st.documentRooms with _ | room
  · simp [h, socketLeave_liveTimers]
  · rcases h2 : mfind sid room.users with _ | u <;>
      simp [h, h2, socketLeave_liveTimers]

theorem leaveAll_autoSaveTimers (sid : String) :
    ∀ (l : List (String × DocumentRoom)) (acc : ServerState × List Emission),
      (leaveAll sid l acc).1.autoSaveTimers = acc.1.autoSaveTimers := by
  intro l
  induction l with
  | nil => intro acc; rfl
  | cons e rest ih =>
    intro acc
    simp only [leaveAll]
    rw [ih]
    split
    · simp [handleUserLeave_autoSaveTimers]
    · rfl

theorem leaveAll_liveTimers (sid : String) :
    ∀ (l : List (String × DocumentRoom)) (acc : ServerState × List Emission),
      (leaveAll sid l acc).1.liveTimers = acc.1.liveTimers := by
  intro l
  induction l with
  | nil => intro acc; rfl
  | cons e rest ih =>
    intro acc
    simp only [leaveAll]
    rw [ih]
    split
    · simp [handleUserLeave_liveTimers]
    · rfl

theorem cancelList_spec :
    ∀ (l : List (String × DocumentAutoSave)) (st : ServerState),
      st.autoSaveTimers = l →
      (cancelList l st).autoSaveTimers = [] ∧
      (cancelList l st).liveTimers =
        st.liveTimers.filter (fun t => l.all (fun e => t.id ≠ e.2.timeoutId)) := by
  intro l
  induction l with
  | nil =>
    intro st h
    refine ⟨h, ?_⟩
    simp [cancelList]
  | cons e rest ih =>
    intro st h
    obtain ⟨k, v⟩ := e
    have hstep : cancelList ((k, v) :: rest) st =
        cancelList rest
          { clearTimeoutId st v.timeoutId with
            autoSaveTimers := merase k (clearTimeoutId st v.timeoutId).autoSaveTimers } := by
      simp [cancelList]
    rw [hstep]
    have hmid : ({ clearTimeoutId st v.timeoutId with
        autoSaveTimers := merase k (clearTimeoutId st v.timeoutId).autoSaveTimers } :
          ServerState).autoSaveTimers = rest := by
      simp [clearTimeoutId, h, merase]
    obtain ⟨ih1, ih2⟩ := ih _ hmid
    refine ⟨ih1, ?_⟩
    rw [ih2]
    simp only [clearTimeoutId]
    rw [List.filter_filter]
    apply List.filter_congr
    intro t _
    simp [List.all_cons, Bool.and_comm]

/-- C6: on transport disconnect, every entry of the process-wide auto-save
registry is deleted and every wired live timer is cancelled — for every
document with a pending timer, joined by the disconnecting socket or not —
while an explicit `leave-document` leaves the registry and the live timers
entirely unchanged. -/
theorem disconnect_cancels_all_saves (st : ServerState) (sid docId : String)
    (hw : TimersWired st) :
    (disconnect st sid).1.autoSaveTimers = [] ∧
    (disconnect st sid).1.liveTimers = [] ∧
    (leaveDocument st sid docId).1.autoSaveTimers = st.autoSaveTimers ∧
    (leaveDocument st sid docId).1.liveTimers = st.liveTimers := by
  have hA := leaveAll_autoSaveTimers sid st.documentRooms (st, [])
  have hL := leaveAll_liveTimers sid st.documentRooms (st, [])
  obtain ⟨c1, c2⟩ := cancelList_spec
    (leaveAll sid st.documentRooms (st, [])).1.autoSaveTimers
    (leaveAll sid st.documentRooms (st, [])).1 rfl
  refine ⟨c1, ?_, handleUserLeave_autoSaveTimers st sid docId,
    handleUserLeave_liveTimers st sid docId⟩
  show (cancelList (leaveAll sid st.documentRooms (st, [])).1.autoSaveTimers
    (leaveAll sid st.documentRooms (st, [])).1).liveTimers = []
  rw [c2, hA, hL]
  rw [List.filter_eq_nil_iff]
  intro t ht
  have hwt := hw t ht
  rcases hen : mfind t.documentId st.autoSaveTimers with _ | en
  · rw [hen] at hwt
    simp at hwt
  · rw [hen] at hwt
    have hid : en.timeoutId = t.id := by simpa using hwt
    have hmem := mfind_mem hen
    simp only [List.all_eq_true]
    push_neg
    refine ⟨(t.documentId, en), hmem, ?_⟩
    simp [hid]

theorem disconnect_cancels_all_saves_witness :
    (disconnect stTimer "sX").1.autoSaveTimers = [] ∧
    (disconnect stTimer "sX").1.liveTimers = [] ∧
    (leaveDocument stTimer "sX" "d2").1.autoSaveTimers = stTimer.autoSaveTimers :=
  ⟨(disconnect_cancels_all_saves stTimer "sX" "d2" (by unfold TimersWired; decide)).1,
   (disconnect_cancels_all_saves stTimer "sX" "d2" (by unfold TimersWired; decide)).2.1,
   (disconnect_cancels_all_saves stTimer "sX" "d2" (by unfold TimersWired; decide)).2.2.1⟩

theorem roomMembers_socketJoin_self (st : ServerState) (sid docId : String)
    (hio : sid ∉ roomMembers st docId) :
    roomMembers (socketJoin st sid docId) docId = roomMembers st docId ++ [sid] := by
  unfold socketJoin
  rw [if_neg hio]
  unfold roomMembers
  dsimp only
  rw [mfind_mset_self]
  rfl

theorem socketJoin_members_mfind (st : ServerState) (sid docId : String)
    (hio : sid ∉ roomMembers st docId) :
    (mfind docId (socketJoin st sid docId).ioRooms).getD [] =
      roomMembers st docId ++ [sid] :=
  roomMembers_socketJoin_self st sid docId hio

theorem filter_ne_self_bang (ms : List String) (sid : String) (hio : sid ∉ ms) :
    ms.filter (fun x => !decide (x = sid)) = ms := by
  refine List.filter_eq_self.mpr ?_
  intro x hx
  simp only [Bool.not_eq_true', decide_eq_false_iff_not]
  intro hxe
  subst hxe
  exact hio hx

theorem roster_filter_bang (sid : String) (l : List (String × SocketUser))
    (hc : ∀ p ∈ l, p.2.socketId = p.1) (hk : sid ∉ l.map Prod.fst) :
    (l.map Prod.snd).filter (fun u => !decide (u.socketId = sid)) = l.map Prod.snd := by
  refine List.filter_eq_self.mpr ?_
  intro u hu
  simp only [List.mem_map] at hu
  obtain ⟨p, hp, rfl⟩ := hu
  simp only [Bool.not_eq_true', decide_eq_false_iff_not, hc p hp]
  intro hps
  exact hk (hps ▸ List.mem_map_of_mem Prod.fst hp)

/-- C7: a successful join notifies every other current room member with a
`user-joined` event carrying the joiner's identity and colour, and then sends
the joiner a `users-list` holding the full prior roster (itself excluded). -/
theorem join_notify_and_roster (st : ServerState) (sid uid docId name : String)
    (rand : Nat) (d : Doc) (h : mfind docId st.store = some d)
    (ha : hasAccess d uid = true) (hio : sid ∉ roomMembers st docId)
    (hkeys : sid ∉ (rosterOf st docId).map Prod.fst)
    (hc : ∀ p ∈ rosterOf st docId, p.2.socketId = p.1) :
    (joinDocument st sid uid docId name rand).2 =
      ((roomMembers st docId).map
        (fun m => (m, SocketEvent.userJoined uid name (generateUserColor rand)))) ++
      [(sid, SocketEvent.usersList ((rosterOf st docId).map Prod.snd))] := by
  simp only [joinDocument, h, ha, if_true, socketJoin_documentRooms]
  rcases hr : mfind docId st.documentRooms with _ | room
  · rw [rosterOf, hr] at hkeys hc ⊢
    simp only [Option.getD_none] at hkeys hc ⊢
    simp [broadcastExcept, hr, mfind_mset_self, roomMembers,
      socketJoin_members_mfind st sid docId hio,
      filter_ne_self_bang ((mfind docId st.ioRooms).getD []) sid hio, mset]
  · rw [rosterOf, hr] at hkeys hc ⊢
    simp only [Option.getD_some] at hkeys hc ⊢
    simp only [hr, Option.isSome_some, if_true, Option.getD_some]
    simp [broadcastExcept, roomMembers, socketJoin_documentRooms, hr,
      socketJoin_members_mfind st sid docId hio,
      filter_ne_self_bang ((mfind docId st.ioRooms).getD []) sid hio,
      mset_of_not_mem hkeys, roster_filter_bang sid room.users hc hkeys]

/-- The state after alice joined d1 as first member. -/
def stAfterA : ServerState :=
  ⟨[("d1", ⟨"d1", [("sA", ⟨"sA", "alice", "Alice", "#FF6B6B"⟩)]⟩)],
   [], [("d1", ["sA"])], [("d1", docA)], [], 0⟩

theorem join_notify_and_roster_witness :
    (joinDocument stAfterA "sB" "bob" "d1" "Bob" 1).2 =
      [("sA", SocketEvent.userJoined "bob" "Bob" "#4ECDC4"),
       ("sB", SocketEvent.usersList [⟨"sA", "alice", "Alice", "#FF6B6B"⟩])] := by
  rw [join_notify_and_roster stAfterA "sB" "bob" "d1" "Bob" 1 docA (by decide) (by decide)
    (by decide) (by decide) (by decide)]
  decide

theorem handleUserLeave_none (st : ServerState) (sid d : String)
    (h : mfind d st.documentRooms = none) :
    (handleUserLeave st sid d).1.documentRooms = st.documentRooms := by
  unfold handleUserLeave
  simp [h, socketLeave_documentRooms]

theorem handleUserLeave_find_other (st : ServerState) (sid d k : String) (hk : k ≠ d) :
    mfind k (handleUserLeave st sid d).1.documentRooms = mfind k st.documentRooms := by
  unfold handleUserLeave
  rcases h : mfind d st.documentRooms with _ | room
  · simp [h, socketLeave_documentRooms]
  · rcases h2 : mfind sid room.users with _ | u
    · simp only [h, h2, socketLeave_documentRooms]
      split
      · exact mfind_merase_ne (Ne.symm hk) _
      · exact mfind_mset_ne (Ne.symm hk) _ _
    · simp only [h, h2, socketLeave_documentRooms]
      split
      · exact mfind_merase_ne (Ne.symm hk) _
      · exact mfind_mset_ne (Ne.symm hk) _ _

theorem handleUserLeave_nodup (st : ServerState) (sid d : String)
    (hnd : NodupKeys st.documentRooms) :
    NodupKeys (handleUserLeave st sid d).1.documentRooms := by
  unfold handleUserLeave
  rcases h : mfind d st.documentRooms with _ | room
  · simpa [h, socketLeave_documentRooms] using hnd
  · rcases h2 : mfind sid room.users with _ | u
    · simp only [h, h2, socketLeave_documentRooms]
      split
      · exact nodupKeys_merase hnd d
      · exact nodupKeys_mset hnd d _
    · simp only [h, h2, socketLeave_documentRooms]
      split
      · exact nodupKeys_merase hnd d
      · exact nodupKeys_mset hnd d _

theorem cancelList_documentRooms :
    ∀ (l : List (String × DocumentAutoSave)) (st : ServerState),
      (cancelList l st).documentRooms = st.documentRooms := by
  intro l
  induction l with
  | nil => intro st; rfl
  | cons e rest ih =>
    intro st
    obtain ⟨k, v⟩ := e
    have hstep : cancelList ((k, v) :: rest) st =
        cancelList rest
          { clearTimeoutId st v.timeoutId with
            autoSaveTimers := merase k (clearTimeoutId st v.timeoutId).autoSaveTimers } := by
      simp [cancelList]
    rw [hstep, ih]
    rfl

theorem leaveAll_find_none (sid docId : String) :
    ∀ (l : List (String × DocumentRoom)) (acc : ServerState × List Emission),
      mfind docId acc.1.documentRooms = none →
      mfind docId (leaveAll sid l acc).1.documentRooms = none := by
  intro l
  induction l with
  | nil => intro acc h; exact h
  | cons e rest ih =>
    intro acc h
    simp only [leaveAll]
    apply ih
    split
    · by_cases hk : e.1 = docId
      · subst hk
        simp [handleUserLeave_none acc.1 sid e.1 h, h]
      · simpa [handleUserLeave_find_other acc.1 sid e.1 docId (Ne.symm hk)] using h
    · exact h

theorem leaveAll_last_member (sid : String) :
    ∀ (l : List (String × DocumentRoom)) (acc : ServerState × List Emission)
      (docId : String) (room : DocumentRoom) (u : SocketUser),
      NodupKeys acc.1.documentRooms →
      mfind docId acc.1.documentRooms = some room →
      room.users = [(sid, u)] →
      mfind docId l = some room →
      mfind docId (leaveAll sid l acc).1.documentRooms = none := by
  intro l
  induction l with
  | nil =>
    intro acc docId room u _ _ _ hl
    simp [mfind] at hl
  | cons e rest ih =>
    intro acc docId room u hnd hacc husers hl
    obtain ⟨k, r⟩ := e
    by_cases hk : k = docId
    · subst hk
      have hr : r = room := by
        simpa [mfind] using hl
      subst hr
      have hcond : (mfind sid r.users).isSome = true := by
        simp [husers, mfind]
      simp only [leaveAll, hcond, if_true]
      apply leaveAll_find_none
      have husers1 : merase sid r.users = [] := by
        simp [husers, merase]
      show mfind k (handleUserLeave acc.1 sid k).1.documentRooms = none
      unfold handleUserLeave
      have hfu : mfind sid r.users = some u := by
        simp [husers, mfind]
      simp only [hacc, hfu, socketLeave_documentRooms, husers1, if_pos rfl]
      exact mfind_merase_self hnd k
    · have hl2 : mfind docId rest = some room := by
        simpa [mfind, hk] using hl
      simp only [leaveAll]
      split
      · exact ih _ docId room u (handleUserLeave_nodup acc.1 sid k hnd)
          (by rw [handleUserLeave_find_other acc.1 sid k docId (Ne.symm hk)]; exact hacc)
          husers hl2
      · exact ih _ docId room u hnd hacc husers hl2

/-- C5: an empty room never persists in the room directory: a
`leave-document` never leaves an empty room behind for the document, the same
leave or disconnect step that removes the last member deletes the room, and a
join onto an absent room recreates it fresh, sending the first joiner an
empty roster. -/
theorem empty_room_never_persists (st : ServerState) (sid docId : String)
    (hnd : NodupKeys st.documentRooms) :
    (∀ r, mfind docId (leaveDocument st sid docId).1.documentRooms = some r →
      r.users ≠ []) ∧
    (∀ room u, mfind docId st.documentRooms = some room → room.users = [(sid, u)] →
      mfind docId (leaveDocument st sid docId).1.documentRooms = none) ∧
    (∀ room u, mfind docId st.documentRooms = some room → room.users = [(sid, u)] →
      mfind docId (disconnect st sid).1.documentRooms = none) ∧
    (∀ uid name rand d, mfind docId st.documentRooms = none →
      mfind docId st.store = some d → hasAccess d uid = true →
      (joinDocument st sid uid docId name rand).2.getLast? =
        some (sid, SocketEvent.usersList [])) := by
  refine ⟨?_, ?_, ?_, ?_⟩
  · intro r hr2
    have hr2' : mfind docId (handleUserLeave st sid docId).1.documentRooms = some r := hr2
    rcases h : mfind docId st.documentRooms with _ | room
    · rw [handleUserLeave_none st sid docId h, h] at hr2'
      cases hr2'
    · rcases h2 : mfind sid room.users with _ | u <;>
      · unfold handleUserLeave at hr2'
        simp only [h, h2, socketLeave_documentRooms] at hr2'
        split at hr2'
        next heq =>
          rw [mfind_merase_self hnd] at hr2'
          cases hr2'
        next hne =>
          rw [mfind_mset_self] at hr2'
          obtain rfl := Option.some.inj hr2'
          simpa using hne
  · intro room u h husers
    show mfind docId (handleUserLeave st sid docId).1.documentRooms = none
    unfold handleUserLeave
    have hfu : mfind sid room.users = some u := by simp [husers, mfind]
    have husers1 : merase sid room.users = [] := by simp [husers, merase]
    simp only [h, hfu, socketLeave_documentRooms, husers1, if_pos rfl]
    exact mfind_merase_self hnd docId
  · intro room u h husers
    show mfind docId (cancelList (leaveAll sid st.documentRooms (st, [])).1.autoSaveTimers
      (leaveAll sid st.documentRooms (st, [])).1).documentRooms = none
    rw [cancelList_documentRooms]
    exact leaveAll_last_member sid st.documentRooms (st, []) docId room u hnd h husers h
  · intro uid name rand d h hstore ha
    simp [joinDocument, hstore, ha, socketJoin_documentRooms, h, mset,
      mfind_mset_self, List.getLast?_concat]

theorem empty_room_never_persists_witness :
    mfind "d1" (leaveDocument stAfterA "sA" "d1").1.documentRooms = none :=
  (empty_room_never_persists stAfterA "sA" "d1" (by unfold NodupKeys; decide)).2.1
    ⟨"d1", [("sA", ⟨"sA", "alice", "Alice", "#FF6B6B"⟩)]⟩
    ⟨"sA", "alice", "Alice", "#FF6B6B"⟩ (by decide) (by decide)

/-- The time and content of the last of a nonempty sequence of edits. -/
def lastEdit (t0 : Nat) (c0 : String) : List (Nat × String) → Nat × String
  | [] => (t0, c0)
  | (t, c) :: rest => lastEdit t c rest

theorem fireDueTimers_single_not_due (st : ServerState) (tm : LiveTimer) (now : Nat)
    (hlive : st.liveTimers = [tm]) (hnot : now < tm.deadline) :
    fireDueTimers st now = (st, []) := by
  unfold fireDueTimers
  rw [hlive]
  have hf : (decide (tm.deadline ≤ now)) = false := by
    simp [Nat.not_le_of_lt hnot]
  simp [List.filter_cons, hf]

theorem fireDueTimers_empty (st : ServerState) (now : Nat)
    (hlive : st.liveTimers = []) :
    fireDueTimers st now = (st, []) := by
  unfold fireDueTimers
  rw [hlive]
  simp

theorem runEdits_inv (sid uid docId delta : String) :
    ∀ (edits : List (Nat × String)) (st : ServerState) (tid tPrev : Nat) (cPrev : String),
      st.liveTimers = [⟨tid, docId, cPrev, tPrev + AUTO_SAVE_DEBOUNCE_MS⟩] →
      mfind docId st.autoSaveTimers = some ⟨docId, cPrev, tid⟩ →
      gapsOk ((tPrev, cPrev) :: edits) = true →
      (runEdits sid uid docId delta edits st).2 = [] ∧
      ∃ tid2,
        (runEdits sid uid docId delta edits st).1.liveTimers =
          [⟨tid2, docId, (lastEdit tPrev cPrev edits).2,
            (lastEdit tPrev cPrev edits).1 + AUTO_SAVE_DEBOUNCE_MS⟩] ∧
        mfind docId (runEdits sid uid docId delta edits st).1.autoSaveTimers =
          some ⟨docId, (lastEdit tPrev cPrev edits).2, tid2⟩ := by
  intro edits
  induction edits with
  | nil =>
    intro st tid tPrev cPrev hlive hmap _
    exact ⟨rfl, tid, by simpa [lastEdit] using hlive, by simpa [lastEdit] using hmap⟩
  | cons e rest ih =>
    intro st tid tPrev cPrev hlive hmap hg
    obtain ⟨t, c⟩ := e
    rw [gapsOk] at hg
    simp only [Bool.and_eq_true, decide_eq_true_eq] at hg
    obtain ⟨⟨hle, hlt⟩, hgrest⟩ := hg
    have hdue : fireDueTimers st t = (st, []) :=
      fireDueTimers_single_not_due st _ t hlive hlt
    have hlive2 : (textChange st sid uid docId delta c t).1.liveTimers =
        [⟨st.nextTimerId, docId, c, t + AUTO_SAVE_DEBOUNCE_MS⟩] := by
      rw [textChange_state_some st sid uid docId delta c t _ hmap]
      dsimp only
      rw [hlive]
      simp
    have hmap2 : mfind docId (textChange st sid uid docId delta c t).1.autoSaveTimers =
        some ⟨docId, c, st.nextTimerId⟩ := by
      rw [textChange_state_some st sid uid docId delta c t _ hmap]
      dsimp only
      exact mfind_mset_self _ _ _
    obtain ⟨ihw, tid2, ihlive, ihmap⟩ :=
      ih (textChange st sid uid docId delta c t).1 st.nextTimerId t c hlive2 hmap2 hgrest
    refine ⟨?_, tid2, ?_, ?_⟩
    · simp only [runEdits, hdue, ihw, List.nil_append]
    · simpa [runEdits, hdue, lastEdit] using ihlive
    · simpa [runEdits, hdue, lastEdit] using ihmap

/-- C3: for a sequence of edits to one document, each arriving within the
debounce window of its predecessor, the edit phase issues no store write at
all, and at the deadline of the last edit the single pending timer fires and
issues exactly one store write, carrying the content of the last edit. -/
theorem debounce_trailing_single_write (st : ServerState)
    (sid uid docId delta : String) (t0 : Nat) (c0 : String)
    (edits : List (Nat × String)) (h0 : st.liveTimers = [])
    (hg : gapsOk ((t0, c0) :: edits) = true) :
    (runEdits sid uid docId delta ((t0, c0) :: edits) st).2 = [] ∧
    (fireDueTimers (runEdits sid uid docId delta ((t0, c0) :: edits) st).1
        ((lastEdit t0 c0 edits).1 + AUTO_SAVE_DEBOUNCE_MS)).2 =
      [(docId, (lastEdit t0 c0 edits).2)] := by
  have hdue0 : fireDueTimers st t0 = (st, []) := fireDueTimers_empty st t0 h0
  have hlive2 : (textChange st sid uid docId delta c0 t0).1.liveTimers =
      [⟨st.nextTimerId, docId, c0, t0 + AUTO_SAVE_DEBOUNCE_MS⟩] := by
    rcases hmap0 : mfind docId st.autoSaveTimers with _ | ex
    · rw [textChange_state_none st sid uid docId delta c0 t0 hmap0]
      dsimp only
      rw [h0]
      rfl
    · rw [textChange_state_some st sid uid docId delta c0 t0 ex hmap0]
      dsimp only
      rw [h0]
      rfl
  have hmap2 : mfind docId (textChange st sid uid docId delta c0 t0).1.autoSaveTimers =
      some ⟨docId, c0, st.nextTimerId⟩ := by
    rcases hmap0 : mfind docId st.autoSaveTimers with _ | ex
    · rw [textChange_state_none st sid uid docId delta c0 t0 hmap0]
      dsimp only
      exact mfind_mset_self _ _ _
    · rw [textChange_state_some st sid uid docId delta c0 t0 ex hmap0]
      dsimp only
      exact mfind_mset_self _ _ _
  obtain ⟨ihw, tid2, ihlive, _⟩ :=
    runEdits_inv sid uid docId delta edits (textChange st sid uid docId delta c0 t0).1
      st.nextTimerId t0 c0 hlive2 hmap2 hg
  constructor
  · simp only [runEdits, hdue0, ihw, List.nil_append]
  · have hfinal : (runEdits sid uid docId delta ((t0, c0) :: edits) st).1 =
        (runEdits sid uid docId delta edits (textChange st sid uid docId delta c0 t0).1).1 := by
      simp only [runEdits, hdue0]
    rw [hfinal]
    unfold fireDueTimers
    rw [ihlive]
    simp

theorem debounce_trailing_single_write_witness :
    (runEdits "sA" "alice" "d1" "dlt" [(0, "a"), (5000, "b"), (10000, "c")] st0).2 = [] ∧
    (fireDueTimers
        (runEdits "sA" "alice" "d1" "dlt" [(0, "a"), (5000, "b"), (10000, "c")] st0).1
        ((lastEdit 0 "a" [(5000, "b"), (10000, "c")]).1 + AUTO_SAVE_DEBOUNCE_MS)).2 =
      [("d1", (lastEdit 0 "a" [(5000, "b"), (10000, "c")]).2)] :=
  debounce_trailing_single_write st0 "sA" "alice" "d1" "dlt" 0 "a"
    [(5000, "b"), (10000, "c")] (by decide) (by decide)
